import Mathlib

/-!
Verification of the TursoFaster repository: a shallow embedding of the
catalog import pipeline (`scripts/import-convex-data.ts`), the cached read
queries (`src/lib/queries.ts`, both variants present in the repository), and
the image-prefetch route, together with theorems settling the frozen claims.

Strings from the JavaScript source are modelled as `List Char`; JavaScript
truthiness of strings ("" is falsy) and of `Map.get` results (0 and
`undefined` are falsy) is modelled explicitly at each use site.
-/

namespace TursoFaster

/-! ## JavaScript string primitives -/

/-- Whitespace recognised by JavaScript `String.prototype.trim`
(ASCII portion; the catalog data is ASCII). -/
def isJsWs (c : Char) : Bool :=
  c = ' ' || c = '\t' || c = '\n' || c = '\r' || c = '\x0b' || c = '\x0c'

/-- Remove trailing JS whitespace. -/
def rtrimWs (l : List Char) : List Char :=
  (l.reverse.dropWhile isJsWs).reverse

/-- JavaScript `s.trim()`: strip leading and trailing whitespace. -/
def jsTrim (l : List Char) : List Char :=
  (rtrimWs l).dropWhile isJsWs

/-- JavaScript truthiness of a nullable string: `null`/`undefined` and the
empty string are falsy. -/
def truthyStr : Option (List Char) → Bool
  | none => false
  | some s => !s.isEmpty

/-- JavaScript `a || b` on nullable strings: returns `b` when `a` is
null/undefined or empty. -/
def jsOr (a b : Option (List Char)) : Option (List Char) :=
  if truthyStr a then a else b

/-- JavaScript `a || null` on an optional string, as used for the
`image_url` fields: an absent or empty string becomes null. -/
def jsOrNull (a : Option (List Char)) : Option (List Char) :=
  if truthyStr a then a else none

/-! ## Batch inserter (`import-convex-data.ts`, the
`for (let i = 0; i < xs.length; i += BATCH_SIZE) xs.slice(i, i + BATCH_SIZE)`
loops). Each loop iteration takes the next `B` records; the recursion below
is the same partition: first `take B`, then recurse on `drop B`. -/

def chunksOf (B : Nat) (l : List α) : List (List α) :=
  if _h : B = 0 then [] else
  match l with
  | [] => []
  | x :: xs =>
    (x :: xs).take B :: chunksOf B ((x :: xs).drop B)
termination_by l.length
decreasing_by simp; omega

/-! ## SQLite `LIKE` semantics

Both variants of `getSearchResults` compare the product name against
patterns built from the search terms (`term + "%"` or `"%" + term + "%"`),
case-insensitively (`COLLATE NOCASE` in the first variant, `LOWER(..) LIKE
LOWER(..)` in the second; both fold ASCII case only, which `Char.toLower`
matches). `%` matches any run of characters and `_` any single character. -/

/-- Convert a Lean string literal to the character-list representation used
throughout this development. -/
def str (s : String) : List Char := s.data

/-- SQLite ASCII-case-insensitive `LIKE` matching of a pattern against a
text: `%` tries every suffix of the text, `_` consumes one character, any
other pattern character must match case-insensitively. -/
def likeMatch : List Char → List Char → Bool
  | [], t => t.isEmpty
  | p :: ps, t =>
    if p = '%' then
      t.tails.any (fun s => likeMatch ps s)
    else
      match t with
      | [] => false
      | c :: ts =>
        if p = '_' then likeMatch ps ts
        else (p.toLower == c.toLower) && likeMatch ps ts

/-- A term carrying no `LIKE` wildcard characters. -/
def noWild (t : List Char) : Bool :=
  t.all (fun c => !(c = '%' || c = '_'))

/-! ## Row types and store (`src/db/schema` as used by `queries.ts` and
the import script) -/

structure CategoryRow where
  slug : List Char
  name : List Char
  collection_id : Nat
  image_url : Option (List Char)
deriving DecidableEq

structure SubcollectionRow where
  id : Nat
  name : List Char
  category_slug : List Char
deriving DecidableEq

structure SubcategoryRow where
  slug : List Char
  name : List Char
  subcollection_id : Nat
  image_url : Option (List Char)
deriving DecidableEq

structure ProductRow where
  slug : List Char
  name : List Char
  description : List Char
  price : Int
  subcategory_slug : List Char
  image_url : Option (List Char)
deriving DecidableEq

structure Store where
  categories : List CategoryRow
  subcollections : List SubcollectionRow
  subcategories : List SubcategoryRow
  products : List ProductRow
deriving DecidableEq

/-! ## Search term extraction (`getSearchResults`, both variants)

`searchTerm.trim().split(" ").filter(t => t.trim() !== "").map(t => t.trim())`
— split on the single space character, drop whitespace-only pieces, trim the
rest. -/

def termsOfChars (s : List Char) : List (List Char) :=
  (((jsTrim s).splitOn ' ').filter (fun t => !(jsTrim t).isEmpty)).map jsTrim

/-! ## First `getSearchResults` variant (`COLLATE NOCASE`, prefix patterns
for terms of length at least 3) -/

/-- Per-term pattern of the first variant:
`term.length >= 3 ? term + "%" : "%" + term + "%"`. -/
def patternV1 (t : List Char) : List Char :=
  if 3 ≤ t.length then t ++ ['%'] else '%' :: (t ++ ['%'])

/-- The where-condition patterns of the first variant: a single term goes
through the single-term branch, several terms through the chained-AND loop;
both branches apply the same per-term pattern rule. The empty case is
unreachable (the code returns early). -/
def condV1 : List (List Char) → List (List Char)
  | [] => []
  | [t] => [patternV1 t]
  | t :: rest => patternV1 t :: rest.map patternV1

/-- The first variant's where-condition as a predicate on the product name:
the conjunction of all per-term `LIKE` conditions. -/
def searchCondV1 (searchTerms : List (List Char)) (n : List Char) : Bool :=
  (condV1 searchTerms).all (fun pt => likeMatch pt n)

/-- The inner joins of `getSearchResults`: products to subcategories on
`subcategory_slug = slug`, then to subcollections on
`subcollection_id = id`, then to categories on `category_slug = slug`. -/
def joinedRows (st : Store) :
    List (ProductRow × SubcategoryRow × SubcollectionRow × CategoryRow) :=
  st.products.flatMap (fun p =>
    (st.subcategories.filter (fun sc => sc.slug == p.subcategory_slug)).flatMap
      (fun sc =>
        (st.subcollections.filter (fun sl => sl.id == sc.subcollection_id)).flatMap
          (fun sl =>
            (st.categories.filter (fun c => c.slug == sl.category_slug)).map
              (fun c => (p, sc, sl, c)))))

/-- Result of a `getSearchResults` call: whether a query was issued to the
store, and the returned joined rows. -/
structure SearchOutcome where
  queried : Bool
  results : List (ProductRow × SubcategoryRow × SubcollectionRow × CategoryRow)
deriving DecidableEq

/-- First variant (`queries.ts` lines 171-237): early return on zero terms,
otherwise prefix patterns for terms of length at least 3 and substring
patterns for shorter terms, all conjoined, limit 5. -/
def getSearchResultsV1 (st : Store) (searchTerm : List Char) : SearchOutcome :=
  let searchTerms := termsOfChars searchTerm
  if searchTerms.isEmpty then ⟨false, []⟩
  else
    ⟨true,
      ((joinedRows st).filter
          (fun r => searchCondV1 searchTerms r.1.name)).take 5⟩

/-! ## Second `getSearchResults` variant (`LOWER(..) LIKE LOWER(..)`,
substring patterns for every term, no zero-term early return) -/

/-- JavaScript coerces `undefined` to the string `"undefined"` inside a
template/concatenation; with zero terms the second variant's multi-term
branch builds `"%" + searchTerms[0] + "%"` with `searchTerms[0]`
undefined. -/
def undefinedChars : List Char := str ("undefined")

/-- Second variant (`queries.ts` lines 408-456): always queries the store;
every pattern is a substring pattern. -/
def getSearchResultsV2 (st : Store) (searchTerm : List Char) : SearchOutcome :=
  let trimmedTerm := jsTrim searchTerm
  let searchPattern := '%' :: (trimmedTerm ++ ['%'])
  let searchTerms := termsOfChars searchTerm
  let patterns :=
    if searchTerms.length = 1 then
      [searchPattern]
    else
      ('%' :: ((searchTerms.headD undefinedChars) ++ ['%'])) ::
        (searchTerms.drop 1).map (fun t => '%' :: (t ++ ['%']))
  ⟨true,
    ((joinedRows st).filter
        (fun r => patterns.all (fun pt => likeMatch pt r.1.name))).take 5⟩

/-- The spec's description of a per-term match: terms of length at least 3
require the case-folded name to start with the case-folded term; shorter
terms require a case-folded substring occurrence. -/
def specTermMatch (t n : List Char) : Prop :=
  if 3 ≤ t.length then t.map Char.toLower <+: n.map Char.toLower
  else t.map Char.toLower <:+: n.map Char.toLower

/-! ## A small concrete store used in counterexamples: one category chain
and two products, one named "undefined item" and one named "Scabbard". -/

def catC : CategoryRow := ⟨str ("c"), str ("Category C"), 1, none⟩

def subcolC : SubcollectionRow := ⟨1, str ("Subcol C"), str ("c")⟩

def subcatC : SubcategoryRow := ⟨str ("s"), str ("Subcat S"), 1, none⟩

def prodUndefinedName : ProductRow :=
  ⟨str ("u-item"), str ("undefined item"), str (""), 0, str ("s"), none⟩

def prodScabbard : ProductRow :=
  ⟨str ("scabbard"), str ("Scabbard"), str (""), 0, str ("s"), none⟩

def searchStore : Store :=
  ⟨[catC], [subcolC], [subcatC], [prodUndefinedName, prodScabbard]⟩

/-! ## Import pipeline (`scripts/import-convex-data.ts`)

Source records as read from the JSONL export (the unused `_id` and
`_creationTime` fields are omitted), and the store row for collections. -/

structure CollectionRow where
  id : Nat
  name : List Char
  slug : List Char
deriving DecidableEq

structure ConvexCollection where
  external_id : Nat
  name : List Char
  slug : List Char
deriving DecidableEq

structure ConvexCategory where
  collection_id : Nat
  name : List Char
  slug : List Char
  image_url : Option (List Char)
deriving DecidableEq

structure ConvexSubcollection where
  external_id : Nat
  category_slug : List Char
  name : List Char
deriving DecidableEq

structure ConvexSubcategory where
  subcollection_id : Nat
  name : List Char
  slug : List Char
  image_url : Option (List Char)
deriving DecidableEq

structure ConvexProduct where
  name : List Char
  slug : List Char
  description : List Char
  price : Int
  subcategory_slug : List Char
  image_url : Option (List Char)
deriving DecidableEq

/-! ### Key remapper

`importCollections` / `importSubcollections` read back all inserted rows,
build a natural-key-to-id `Map` (`Map.set` in row order: a later row with
the same key overwrites an earlier one), then walk the source records:
`const dbId = keyToIdMap.get(key); if (dbId) { map.set(external_id, dbId) }
else { warn }`. JavaScript `Map`s are modelled as functions to `Option`;
`if (dbId)` is falsy both for a missing entry and for the id 0. -/

def keyUpd (key : ρ → List Char) (rid : ρ → Nat)
    (m : List Char → Option Nat) (r : ρ) : List Char → Option Nat :=
  fun s => if s = key r then some (rid r) else m s

/-- The `for (const dbItem of allRows) map.set(key(dbItem), dbItem.id)`
loop. -/
def buildKeyMap (rows : List ρ) (key : ρ → List Char) (rid : ρ → Nat) :
    List Char → Option Nat :=
  rows.foldl (keyUpd key rid) (fun _ => none)

/-- One step of the external-id remapping loop over the source records. -/
def extStep (lookup : List Char → Option Nat) (key : δ → List Char)
    (ext : δ → Nat) (acc : (Nat → Option Nat) × List (List Char)) (it : δ) :
    (Nat → Option Nat) × List (List Char) :=
  match lookup (key it) with
  | some dbId =>
    if dbId = 0 then (acc.1, acc.2 ++ [key it])
    else (fun k => if k = ext it then some dbId else acc.1 k, acc.2)
  | none => (acc.1, acc.2 ++ [key it])

/-- The `for (const convexItem of data)` remapping loop: returns the
external-id-to-internal-id map and the list of warned keys. -/
def buildExtMap (lookup : List Char → Option Nat) (key : δ → List Char)
    (ext : δ → Nat) (data : List δ) :
    (Nat → Option Nat) × List (List Char) :=
  data.foldl (extStep lookup key ext) (fun _ => none, [])

/-- `importCollections`: natural key is the slug. -/
def collectionExtMap (rows : List CollectionRow) (data : List ConvexCollection) :
    (Nat → Option Nat) × List (List Char) :=
  buildExtMap (buildKeyMap rows (fun r => r.slug) (fun r => r.id))
    (fun d => d.slug) (fun d => d.external_id) data

/-- `importSubcollections`: natural key is the `name + "::" + category_slug`
composite. -/
def subcolKey (nm cslug : List Char) : List Char :=
  nm ++ str ("::") ++ cslug

def subcollectionExtMap (rows : List SubcollectionRow)
    (data : List ConvexSubcollection) :
    (Nat → Option Nat) × List (List Char) :=
  buildExtMap (buildKeyMap rows (fun r => subcolKey r.name r.category_slug)
      (fun r => r.id))
    (fun d => subcolKey d.name d.category_slug) (fun d => d.external_id) data

/-! ### Child-entity resolution (`importCategories`, `importSubcategories`,
`importProducts`)

Categories and subcategories map each record through the parent remapping
and drop the record (`return null`, later filtered out) when the lookup is
falsy; products are mapped to rows with no parent check at all. -/

def categoriesToInsert (collectionMap : Nat → Option Nat)
    (data : List ConvexCategory) : List CategoryRow :=
  data.filterMap (fun item =>
    match collectionMap item.collection_id with
    | none => none
    | some cid =>
      if cid = 0 then none
      else some ⟨item.slug, item.name, cid, jsOrNull item.image_url⟩)

def categoryWarnings (collectionMap : Nat → Option Nat)
    (data : List ConvexCategory) : List Nat :=
  data.filterMap (fun item =>
    match collectionMap item.collection_id with
    | none => some item.collection_id
    | some cid => if cid = 0 then some item.collection_id else none)

def subcategoriesToInsert (subcollectionMap : Nat → Option Nat)
    (data : List ConvexSubcategory) : List SubcategoryRow :=
  data.filterMap (fun item =>
    match subcollectionMap item.subcollection_id with
    | none => none
    | some sid =>
      if sid = 0 then none
      else some ⟨item.slug, item.name, sid, jsOrNull item.image_url⟩)

def subcategoryWarnings (subcollectionMap : Nat → Option Nat)
    (data : List ConvexSubcategory) : List Nat :=
  data.filterMap (fun item =>
    match subcollectionMap item.subcollection_id with
    | none => some item.subcollection_id
    | some sid => if sid = 0 then some item.subcollection_id else none)

/-- `importProducts` maps every source record to a row — there is no
resolution of `subcategory_slug` against the subcategories table. -/
def productsToInsert (data : List ConvexProduct) : List ProductRow :=
  data.map (fun item =>
    ⟨item.slug, item.name, item.description, item.price,
      item.subcategory_slug, jsOrNull item.image_url⟩)

/-! ## Claims C1 and C4 -/

def cmapEx : Nat → Option Nat := fun k => if k = 5 then some 2 else none

def catItemEx : ConvexCategory := ⟨5, str ("Cat A"), str ("cat-a"), none⟩

def catRowEx : CategoryRow := ⟨str ("cat-a"), str ("Cat A"), 2, none⟩

def convexProductX : ConvexProduct :=
  ⟨str ("Prod X"), str ("prod-x"), str (""), 0, str ("x"), none⟩

def colRowEx : CollectionRow := ⟨3, str ("Col A"), str ("a")⟩

def colDataEx : ConvexCollection := ⟨7, str ("Col A"), str ("a")⟩

/-! ## Record readers (`readJSONL`, `readJSONLStream`)

The eager reader splits the file content on `"\n"`; the streaming reader
consumes lines from Node `readline` (with `crlfDelay: Infinity`), whose
line endings are `\r\n`, `\n`, and a lone `\r`. Both keep only lines whose
trim is nonempty and parse the kept, untrimmed line; `JSON.parse` is
abstracted as a parse function. A final empty segment after a trailing
newline is produced by `split` and not by `readline`, but it is blank and
removed by the filter in both readers, so the models agree on keeping it. -/

def splitNl : List Char → List (List Char)
  | [] => [[]]
  | c :: rest =>
    if c = '\n' then [] :: splitNl rest
    else
      match splitNl rest with
      | [] => [[c]]
      | l :: ls => (c :: l) :: ls

def splitRL : List Char → List (List Char)
  | [] => [[]]
  | [c] => if c = '\n' || c = '\r' then [[], []] else [[c]]
  | c :: c2 :: rest =>
    if c = '\n' then [] :: splitRL (c2 :: rest)
    else if c = '\r' then
      (if c2 = '\n' then [] :: splitRL rest else [] :: splitRL (c2 :: rest))
    else
      match splitRL (c2 :: rest) with
      | [] => [[c]]
      | l :: ls => (c :: l) :: ls

/-- Eager reader `readJSONL`. -/
def readJSONL (parse : List Char → α) (content : List Char) : List α :=
  ((splitNl content).filter (fun l => !(jsTrim l).isEmpty)).map parse

/-- Streaming reader `readJSONLStream`. -/
def readJSONLStream (parse : List Char → α) (content : List Char) : List α :=
  ((splitRL content).filter (fun l => !(jsTrim l).isEmpty)).map parse

/-- Content in which every carriage return is immediately followed by a
line feed. -/
def noLoneCR : List Char → Bool
  | [] => true
  | [c] => if c = '\r' then false else true
  | c :: c2 :: rest =>
    if c = '\r' then (if c2 = '\n' then noLoneCR rest else false)
    else noLoneCR (c2 :: rest)

/-! ## Session lookup (`getUser`, identical in both `queries.ts` variants)

The cookie read, the token verification (`verifyToken`, an external
collaborator), the clock, and the user table are parameters. The payload
checks mirror the source order: missing cookie or empty value, failed
verification, missing `user` field, non-numeric `user.id` (modelled as
`none`), expiry strictly in the past, then a `limit 1` lookup by id with
`null` on an empty result. The model is a total function: no branch
throws. -/

structure UserRow where
  id : Int
  email : List Char
deriving DecidableEq

structure SessionUser where
  id : Option Int
deriving DecidableEq

structure SessionData where
  user : Option SessionUser
  expires : Int
deriving DecidableEq

def getUser (cookie : Option (List Char))
    (verify : List Char → Option SessionData) (now : Int)
    (users : List UserRow) : Option UserRow :=
  match cookie with
  | none => none
  | some v =>
    if v.isEmpty then none
    else
      match verify v with
      | none => none
      | some sessionData =>
        match sessionData.user with
        | none => none
        | some u =>
          match u.id with
          | none => none
          | some uid =>
            if sessionData.expires < now then none
            else
              match (users.filter (fun r => r.id == uid)).take 1 with
              | [] => none
              | r :: _ => some r

def verifyEx : List Char → Option SessionData :=
  fun _ => some ⟨some ⟨some 7⟩, 100⟩

def verifyEx2 : List Char → Option SessionData :=
  fun _ => some ⟨some ⟨some 9⟩, 300⟩

def userEx : UserRow := ⟨7, str ("u7 at example test")⟩

/-! ## Image-prefetch route (`src/unnamed/part_001`)

The route resolves a host from the environment (`getHostname`), falls back
to the request host header in development, and otherwise returns a 500
response. With a host, an empty path yields 400; then the page is fetched
and parsed and `main img` elements are extracted. A non-ok response and any
thrown error (fetch failure, parse failure — the whole handler body is in a
try/catch) yield 200 with an empty list. The fetch-and-parse outcome is a
parameter (`PageOutcome`). -/

structure ImgTag where
  srcset : Option (List Char)
  srcSetCamel : Option (List Char)
  sizes : Option (List Char)
  src : Option (List Char)
  alt : Option (List Char)
  loading : Option (List Char)
deriving DecidableEq

structure ImgOut where
  srcset : Option (List Char)
  sizes : Option (List Char)
  src : Option (List Char)
  alt : Option (List Char)
  loading : Option (List Char)
deriving DecidableEq

structure PrefetchEnv where
  nodeEnvDev : Bool
  vercelUrl : Option (List Char)
  vercelEnv : Option (List Char)
  vercelProjectProductionUrl : Option (List Char)
  vercelBranchUrl : Option (List Char)
deriving DecidableEq

inductive PageOutcome where
  | fetchFail
  | notOk
  | page (imgs : List ImgTag)
deriving DecidableEq

structure PrefetchResponse where
  status : Nat
  images : List ImgOut
deriving DecidableEq

def getHostname (env : PrefetchEnv) : Option (List Char) :=
  if env.nodeEnvDev then some (str ("localhost:3000"))
  else if truthyStr env.vercelUrl then env.vercelUrl
  else if env.vercelEnv == some (str ("production")) then
    jsOr env.vercelProjectProductionUrl env.vercelUrl
  else jsOr env.vercelBranchUrl env.vercelUrl

/-- `document.querySelectorAll("main img")` results mapped to the response
shape (`srcset: img.srcset || img.srcSet`) and filtered on a truthy
`src`. -/
def extractImages (imgs : List ImgTag) : List ImgOut :=
  (imgs.map (fun im =>
    ⟨jsOr im.srcset im.srcSetCamel, im.sizes, im.src, im.alt,
      im.loading⟩)).filter (fun im => truthyStr im.src)

/-- `resolvedParams.rest.join("/")`. -/
def hrefOf (rest : List (List Char)) : List Char :=
  (rest.intersperse (str ("/"))).flatten

/-- The fetch-parse-respond tail shared verbatim by the dev-fallback branch
and the main branch of the handler. -/
def fetchAndExtract (fo : PageOutcome) : PrefetchResponse :=
  match fo with
  | .fetchFail => ⟨200, []⟩
  | .notOk => ⟨200, []⟩
  | .page imgs => ⟨200, extractImages imgs⟩

def GET (env : PrefetchEnv) (hostHeader : Option (List Char))
    (rest : List (List Char)) (fo : PageOutcome) : PrefetchResponse :=
  if truthyStr (getHostname env) then
    if (hrefOf rest).isEmpty then ⟨400, []⟩
    else fetchAndExtract fo
  else
    if truthyStr hostHeader && env.nodeEnvDev then
      if (hrefOf rest).isEmpty then ⟨400, []⟩
      else fetchAndExtract fo
    else ⟨500, []⟩

def devEnv : PrefetchEnv := ⟨true, none, none, none, none⟩

def prodBadEnv : PrefetchEnv :=
  ⟨false, none, some (str ("production")), none, none⟩

def imgGood : ImgTag :=
  ⟨some (str ("a.webp 1x")), none, none, some (str ("/a.webp")), none, none⟩

def imgBad : ImgTag := ⟨none, none, none, none, none, none⟩

theorem chunksOf_nil (B : Nat) : chunksOf B ([] : List α) = [] := by
  unfold chunksOf; split <;> rfl

theorem chunksOf_cons (B : Nat) (hB : B ≠ 0) (x : α) (xs : List α) :
    chunksOf B (x :: xs) = (x :: xs).take B :: chunksOf B ((x :: xs).drop B) := by
  rw [chunksOf]
  simp [hB]

theorem chunksOf_flatten (B : Nat) (hB : 0 < B) (l : List α) :
    (chunksOf B l).flatten = l := by
  have H : ∀ (n : Nat) (l : List α), l.length ≤ n → (chunksOf B l).flatten = l := by
    intro n
    induction n with
    | zero =>
      intro l hl
      have : l = [] := List.length_eq_zero.mp (Nat.le_zero.mp hl)
      simp [this, chunksOf_nil]
    | succ n ih =>
      intro l hl
      match l with
      | [] => simp [chunksOf_nil]
      | x :: xs =>
        rw [chunksOf_cons B (Nat.pos_iff_ne_zero.mp hB) x xs, List.flatten_cons,
          ih _ (by simp at hl ⊢; omega), List.take_append_drop]
  exact H l.length l le_rfl

theorem chunksOf_mem_length (B : Nat) (hB : 0 < B) (l : List α) :
    ∀ c ∈ chunksOf B l, 1 ≤ c.length ∧ c.length ≤ B := by
  have H : ∀ (n : Nat) (l : List α), l.length ≤ n →
      ∀ c ∈ chunksOf B l, 1 ≤ c.length ∧ c.length ≤ B := by
    intro n
    induction n with
    | zero =>
      intro l hl
      have : l = [] := List.length_eq_zero.mp (Nat.le_zero.mp hl)
      simp [this, chunksOf_nil]
    | succ n ih =>
      intro l hl
      match l with
      | [] => simp [chunksOf_nil]
      | x :: xs =>
        rw [chunksOf_cons B (Nat.pos_iff_ne_zero.mp hB) x xs]
        intro c hc
        rcases List.mem_cons.mp hc with h | h
        · subst h
          refine ⟨?_, ?_⟩
          · simp only [List.length_take, List.length_cons]
            omega
          · simp only [List.length_take, List.length_cons]
            omega
        · exact ih _ (by simp at hl ⊢; omega) c h
  exact H l.length l le_rfl

theorem chunksOf_dropLast_length (B : Nat) (hB : 0 < B) (l : List α) :
    ∀ c ∈ (chunksOf B l).dropLast, c.length = B := by
  have H : ∀ (n : Nat) (l : List α), l.length ≤ n →
      ∀ c ∈ (chunksOf B l).dropLast, c.length = B := by
    intro n
    induction n with
    | zero =>
      intro l hl
      have : l = [] := List.length_eq_zero.mp (Nat.le_zero.mp hl)
      simp [this, chunksOf_nil]
    | succ n ih =>
      intro l hl
      match l with
      | [] => simp [chunksOf_nil]
      | x :: xs =>
        rw [chunksOf_cons B (Nat.pos_iff_ne_zero.mp hB) x xs]
        intro c hc
        by_cases hrest : (x :: xs).drop B = []
        · rw [hrest, chunksOf_nil] at hc
          simp at hc
        · have hne : chunksOf B ((x :: xs).drop B) ≠ [] := by
            match hd : (x :: xs).drop B with
            | [] => exact absurd hd hrest
            | y :: ys =>
              rw [chunksOf_cons B (Nat.pos_iff_ne_zero.mp hB) y ys]
              simp
          rw [List.dropLast_cons_of_ne_nil hne] at hc
          rcases List.mem_cons.mp hc with h | h
          · subst h
            have hlen : B < (x :: xs).length := by
              by_contra hle
              push_neg at hle
              exact hrest (List.drop_eq_nil_of_le hle)
            simp only [List.length_take, List.length_cons] at hlen ⊢
            omega
          · exact ih _ (by simp at hl ⊢; omega) c h
  exact H l.length l le_rfl

theorem likeMatch_nil (t : List Char) : likeMatch [] t = t.isEmpty := by
  rw [likeMatch]

theorem likeMatch_pct (ps t : List Char) :
    likeMatch ('%' :: ps) t = t.tails.any (fun s => likeMatch ps s) := by
  rw [likeMatch.eq_def]
  simp

theorem likeMatch_chr_nil (p : Char) (hp : p ≠ '%') (ps : List Char) :
    likeMatch (p :: ps) [] = false := by
  rw [likeMatch]
  simp [hp]

theorem likeMatch_chr_cons (p : Char) (hp : p ≠ '%') (hp' : p ≠ '_')
    (ps : List Char) (c : Char) (ts : List Char) :
    likeMatch (p :: ps) (c :: ts) =
      ((p.toLower == c.toLower) && likeMatch ps ts) := by
  rw [likeMatch]
  simp [hp, hp']

theorem likeMatch_pct_any (t : List Char) : likeMatch ['%'] t = true := by
  rw [likeMatch_pct, List.any_eq_true]
  refine ⟨[], ?_, by rw [likeMatch_nil]; rfl⟩
  rw [List.mem_tails]
  exact List.nil_suffix

/-- A wildcard-free term followed by `%` matches exactly the texts whose
case-folding starts with the term's case-folding. -/
theorem likeMatch_term_pct (w : List Char) (hw : noWild w = true) :
    ∀ t : List Char,
      (likeMatch (w ++ ['%']) t = true ↔
        w.map Char.toLower <+: t.map Char.toLower) := by
  induction w with
  | nil =>
    intro t
    simp [likeMatch_pct_any]
  | cons p ps ih =>
    have hp : ¬(p = '%' || p = '_') = true := by
      have := (List.all_eq_true.mp hw) p (List.mem_cons_self p ps)
      simpa using this
    have hp1 : p ≠ '%' := by
      intro h; exact hp (by simp [h])
    have hp2 : p ≠ '_' := by
      intro h; exact hp (by simp [h])
    have hw' : noWild ps = true := by
      unfold noWild at hw ⊢
      exact List.all_eq_true.mpr (fun c hc =>
        (List.all_eq_true.mp hw) c (List.mem_cons_of_mem p hc))
    intro t
    match t with
    | [] =>
      rw [List.cons_append, likeMatch_chr_nil p hp1]
      simp
    | c :: ts =>
      rw [List.cons_append, likeMatch_chr_cons p hp1 hp2]
      simp only [List.map_cons, List.cons_prefix_cons, Bool.and_eq_true,
        beq_iff_eq]
      exact and_congr Iff.rfl (ih hw' ts)

theorem likeMatch_pct_iff_drop (ps : List Char) :
    ∀ t : List Char,
      (likeMatch ('%' :: ps) t = true ↔ ∃ n, likeMatch ps (t.drop n) = true) := by
  intro t
  rw [likeMatch_pct, List.any_eq_true]
  constructor
  · rintro ⟨s, hs, hp⟩
    have hsfx : s <:+ t := (List.mem_tails s t).mp hs
    obtain ⟨u, rfl⟩ := hsfx
    exact ⟨u.length, by rwa [List.drop_left]⟩
  · rintro ⟨n, hn⟩
    exact ⟨t.drop n, (List.mem_tails _ _).mpr (t.drop_suffix n), hn⟩

theorem isInfix_iff_exists_drop (l m : List β) :
    l <:+: m ↔ ∃ n, l <+: m.drop n := by
  constructor
  · rintro ⟨s, u, rfl⟩
    refine ⟨s.length, ?_⟩
    rw [List.append_assoc, List.drop_left]
    exact ⟨u, rfl⟩
  · rintro ⟨n, hp⟩
    exact hp.isInfix.trans (m.drop_suffix n).isInfix

/-- A wildcard-free term wrapped in `%`...`%` matches exactly the texts whose
case-folding contains the term's case-folding as a contiguous substring. -/
theorem likeMatch_pct_term_pct (w : List Char) (hw : noWild w = true)
    (t : List Char) :
    likeMatch ('%' :: (w ++ ['%'])) t = true ↔
      w.map Char.toLower <:+: t.map Char.toLower := by
  rw [likeMatch_pct_iff_drop, isInfix_iff_exists_drop]
  constructor
  · rintro ⟨n, hn⟩
    refine ⟨n, ?_⟩
    rw [← List.map_drop]
    exact (likeMatch_term_pct w hw (t.drop n)).mp hn
  · rintro ⟨n, hn⟩
    refine ⟨n, ?_⟩
    rw [← List.map_drop] at hn
    exact (likeMatch_term_pct w hw (t.drop n)).mpr hn

/-! ## Bridging lemmas for the search policy -/

theorem condV1_eq_map (ts : List (List Char)) : condV1 ts = ts.map patternV1 := by
  match ts with
  | [] => rfl
  | [t] => rfl
  | t :: u :: rest => rfl

theorem likeMatch_patternV1 (t n : List Char) (hw : noWild t = true) :
    (likeMatch (patternV1 t) n = true ↔ specTermMatch t n) := by
  unfold patternV1 specTermMatch
  by_cases h3 : 3 ≤ t.length
  · simp only [if_pos h3]
    exact likeMatch_term_pct t hw n
  · simp only [if_neg h3]
    exact likeMatch_pct_term_pct t hw n

/-! ## Whitespace-only inputs -/

theorem jsTrim_of_all_ws (s : List Char) (h : s.all isJsWs = true) :
    jsTrim s = [] := by
  unfold jsTrim rtrimWs
  have hrev : s.reverse.dropWhile isJsWs = [] := by
    rw [List.dropWhile_eq_nil_iff]
    intro x hx
    exact (List.all_eq_true.mp h) x (List.mem_reverse.mp hx)
  rw [hrev]
  rfl

theorem termsOfChars_of_ws (s : List Char) (h : s.all isJsWs = true) :
    termsOfChars s = [] := by
  unfold termsOfChars
  rw [jsTrim_of_all_ws s h]
  rfl

/-! ## Claims C2, C3, C5 -/

/-- C5: for every ordered sequence of records and fixed chunk size B > 0,
the batch inserter partitions the sequence into contiguous chunks written in
order — every chunk except possibly the last has exactly B records, the
last has between 1 and B — and the concatenation of the chunks, in write
order, equals the input sequence. -/
theorem C5_batch_chunks (B : Nat) (l : List α) (hB : 0 < B) :
    (chunksOf B l).flatten = l ∧
      (∀ c ∈ chunksOf B l, 1 ≤ c.length ∧ c.length ≤ B) ∧
      (∀ c ∈ (chunksOf B l).dropLast, c.length = B) :=
  ⟨chunksOf_flatten B hB l, chunksOf_mem_length B hB l,
    chunksOf_dropLast_length B hB l⟩

theorem C5_batch_chunks_witness :
    (chunksOf 2 [1, 2, 3, 4, 5]).flatten = [1, 2, 3, 4, 5] :=
  (C5_batch_chunks 2 [1, 2, 3, 4, 5] (by decide)).1

/-- C2 (amended): in the first `getSearchResults` variant (`COLLATE
NOCASE`, `queries.ts` lines 171-237) the search predicate is, for
wildcard-free terms, the conjunction over all remaining terms of a
case-insensitive match on the product name — a prefix match for terms of
length at least 3, a substring match for shorter terms; "ab" matches
"Cabinet", "cab" matches "Cabinet", "cab" does not match "Scabbard". The
second variant uses substring matching for every term, where "cab" does
match "Scabbard" (see the counterexample). -/
theorem C2_search_term_policy (s n : List Char)
    (hw : ∀ t ∈ termsOfChars s, noWild t = true) :
    (searchCondV1 (termsOfChars s) n = true ↔
      ∀ t ∈ termsOfChars s, specTermMatch t n) ∧
    searchCondV1 (termsOfChars (str ("ab"))) (str ("Cabinet")) = true ∧
    searchCondV1 (termsOfChars (str ("cab"))) (str ("Cabinet")) = true ∧
    searchCondV1 (termsOfChars (str ("cab"))) (str ("Scabbard")) = false := by
  refine ⟨?_, by decide, by decide, by decide⟩
  unfold searchCondV1
  rw [condV1_eq_map, List.all_map, List.all_eq_true]
  constructor
  · intro h t ht
    exact (likeMatch_patternV1 t n (hw t ht)).mp (h t ht)
  · intro h t ht
    exact (likeMatch_patternV1 t n (hw t ht)).mpr (h t ht)

theorem C2_search_term_policy_witness :
    (searchCondV1 (termsOfChars (str ("cab"))) (str ("Cabinet")) = true ↔
      ∀ t ∈ termsOfChars (str ("cab")), specTermMatch t (str ("Cabinet"))) :=
  (C2_search_term_policy (str ("cab")) (str ("Cabinet")) (by decide)).1

/-- C2 counterexample: the repository's second `getSearchResults` variant
(`queries.ts` lines 408-456) matches every term as a substring, so the
length-3 term "cab" does return the product named "Scabbard" — refuting
the claim that a term of length at least 3 only matches as a prefix. -/
theorem C2_search_term_policy_counterexample :
    (getSearchResultsV2 searchStore (str ("cab"))).results =
      [(prodScabbard, subcatC, subcolC, catC)] := by decide

/-- C3 (amended): on a search string that is empty or whitespace-only, the
first `getSearchResults` variant returns an empty result set without
querying the store; the second variant always issues a store query (with
the pattern degenerating to "%undefined%" via JavaScript string coercion —
see the counterexample). -/
theorem C3_whitespace_search (st : Store) (s : List Char)
    (h : s.all isJsWs = true) :
    getSearchResultsV1 st s = ⟨false, []⟩ ∧
      (getSearchResultsV2 st s).queried = true := by
  constructor
  · unfold getSearchResultsV1
    rw [termsOfChars_of_ws s h]
    rfl
  · rfl

theorem C3_whitespace_search_witness :
    getSearchResultsV1 searchStore (str (" ")) = ⟨false, []⟩ :=
  (C3_whitespace_search searchStore (str (" ")) (by decide)).1

/-- C3 counterexample: the second `getSearchResults` variant, on the
whitespace-only input " ", issues a store query (its pattern is
"%undefined%") and returns the product named "undefined item" — refuting
the claim that whitespace-only input yields an empty result set with no
store query. -/
theorem C3_whitespace_search_counterexample :
    (getSearchResultsV2 searchStore (str (" "))).queried = true ∧
      (getSearchResultsV2 searchStore (str (" "))).results =
        [(prodUndefinedName, subcatC, subcolC, catC)] := by decide

/-! ### Lemmas about the key map and the external-id remapping -/

theorem buildKeyMap_go_notmem (key : ρ → List Char) (rid : ρ → Nat)
    (rows : List ρ) (m : List Char → Option Nat) (s : List Char)
    (h : ∀ r ∈ rows, key r ≠ s) :
    rows.foldl (keyUpd key rid) m s = m s := by
  induction rows generalizing m with
  | nil => rfl
  | cons r rs ih =>
    rw [List.foldl_cons,
      ih (keyUpd key rid m r) (fun r' hr' => h r' (List.mem_cons_of_mem r hr'))]
    unfold keyUpd
    exact if_neg (fun hs => h r (List.mem_cons_self r rs) hs.symm)

theorem buildKeyMap_go_lookup (key : ρ → List Char) (rid : ρ → Nat)
    (rows : List ρ) (hnd : (rows.map key).Nodup)
    (m : List Char → Option Nat) (s : List Char) (n : Nat) :
    (rows.foldl (keyUpd key rid) m s = some n ↔
      ((∃ r ∈ rows, key r = s ∧ rid r = n) ∨
        ((∀ r ∈ rows, key r ≠ s) ∧ m s = some n))) := by
  induction rows generalizing m with
  | nil => simp
  | cons r rs ih =>
    rw [List.map_cons, List.nodup_cons] at hnd
    obtain ⟨hnotin, hnd'⟩ := hnd
    rw [List.foldl_cons]
    by_cases hs : s = key r
    · have hrs : ∀ r' ∈ rs, key r' ≠ s := by
        intro r' hr' heq
        exact hnotin (hs ▸ heq ▸ List.mem_map_of_mem key hr')
      rw [buildKeyMap_go_notmem key rid rs _ s hrs]
      unfold keyUpd
      rw [if_pos hs]
      constructor
      · intro h
        exact Or.inl ⟨r, List.mem_cons_self r rs, hs.symm, (Option.some_inj.mp h)⟩
      · rintro (⟨r', hr', hkey, hrid⟩ | ⟨hall, _⟩)
        · rcases List.mem_cons.mp hr' with heq | hr'
          · subst heq
            rw [hrid]
          · exact absurd hkey (hrs r' hr')
        · exact absurd hs.symm (hall r (List.mem_cons_self r rs))
    · have hupd : keyUpd key rid m r s = m s := if_neg hs
      rw [ih hnd', hupd]
      constructor
      · rintro (⟨r', hr', hkey, hrid⟩ | ⟨hall, hm⟩)
        · exact Or.inl ⟨r', List.mem_cons_of_mem r hr', hkey, hrid⟩
        · refine Or.inr ⟨?_, hm⟩
          intro r' hr'
          rcases List.mem_cons.mp hr' with heq | hr'
          · subst heq
            exact fun hk => hs hk.symm
          · exact hall r' hr'
      · rintro (⟨r', hr', hkey, hrid⟩ | ⟨hall, hm⟩)
        · rcases List.mem_cons.mp hr' with heq | hr'
          · subst heq
            exact absurd hkey.symm hs
          · exact Or.inl ⟨r', hr', hkey, hrid⟩
        · exact Or.inr ⟨fun r' hr' => hall r' (List.mem_cons_of_mem r hr'), hm⟩

theorem extMap_go_stable (lookup : List Char → Option Nat)
    (key : δ → List Char) (ext : δ → Nat) (data : List δ)
    (acc : (Nat → Option Nat) × List (List Char)) (k : Nat)
    (h : ∀ it ∈ data, ext it ≠ k) :
    (data.foldl (extStep lookup key ext) acc).1 k = acc.1 k := by
  induction data generalizing acc with
  | nil => rfl
  | cons it its ih =>
    rw [List.foldl_cons,
      ih _ (fun d hd => h d (List.mem_cons_of_mem it hd))]
    unfold extStep
    rcases hl : lookup (key it) with _ | dbId
    · rfl
    · by_cases h0 : dbId = 0
      · simp [h0]
      · simp only [h0, if_false]
        exact if_neg (fun hk => h it (List.mem_cons_self it its) hk.symm)

theorem extMap_go_warnmono (lookup : List Char → Option Nat)
    (key : δ → List Char) (ext : δ → Nat) (data : List δ)
    (acc : (Nat → Option Nat) × List (List Char)) (w : List Char)
    (hw : w ∈ acc.2) :
    w ∈ (data.foldl (extStep lookup key ext) acc).2 := by
  induction data generalizing acc with
  | nil => exact hw
  | cons it its ih =>
    rw [List.foldl_cons]
    apply ih
    unfold extStep
    rcases hl : lookup (key it) with _ | dbId
    · exact List.mem_append_left _ hw
    · by_cases h0 : dbId = 0
      · simp only [h0, if_true]
        exact List.mem_append_left _ hw
      · simp only [h0, if_false]
        exact hw

theorem extMap_go_warn (lookup : List Char → Option Nat)
    (key : δ → List Char) (ext : δ → Nat) (data : List δ)
    (acc : (Nat → Option Nat) × List (List Char)) (d : δ) (hd : d ∈ data)
    (h : lookup (key d) = none ∨ lookup (key d) = some 0) :
    key d ∈ (data.foldl (extStep lookup key ext) acc).2 := by
  induction data generalizing acc with
  | nil => cases hd
  | cons it its ih =>
    rw [List.foldl_cons]
    rcases List.mem_cons.mp hd with heq | hd'
    · subst heq
      apply extMap_go_warnmono
      unfold extStep
      rcases h with h | h <;> rw [h] <;>
        exact List.mem_append_right _ (List.mem_singleton_self _)
    · exact ih _ hd'

theorem extMap_go_lookup (lookup : List Char → Option Nat)
    (key : δ → List Char) (ext : δ → Nat) (data : List δ)
    (hnd : (data.map ext).Nodup)
    (acc : (Nat → Option Nat) × List (List Char)) (d : δ) (hd : d ∈ data)
    (n : Nat) :
    ((data.foldl (extStep lookup key ext) acc).1 (ext d) = some n ↔
      ((lookup (key d) = some n ∧ n ≠ 0) ∨
        ((lookup (key d) = none ∨ lookup (key d) = some 0) ∧
          acc.1 (ext d) = some n))) := by
  induction data generalizing acc with
  | nil => cases hd
  | cons it its ih =>
    rw [List.map_cons, List.nodup_cons] at hnd
    obtain ⟨hnotin, hnd'⟩ := hnd
    rw [List.foldl_cons]
    rcases List.mem_cons.mp hd with heq | hd'
    · subst heq
      have hits : ∀ it' ∈ its, ext it' ≠ ext d := by
        intro it' hit' hext
        exact hnotin (hext ▸ List.mem_map_of_mem ext hit')
      rw [extMap_go_stable lookup key ext its _ _ hits]
      unfold extStep
      rcases hl : lookup (key d) with _ | dbId
      · simp
      · by_cases h0 : dbId = 0
        · subst h0
          constructor
          · intro h
            exact Or.inr ⟨Or.inr rfl, h⟩
          · rintro (⟨h1, h2⟩ | ⟨_, h⟩)
            · exact absurd (Option.some_inj.mp h1).symm h2
            · exact h
        · constructor
          · intro h
            have h2 : (if dbId = 0 then (acc.1, acc.2 ++ [key d])
                else (fun k => if k = ext d then some dbId else acc.1 k,
                  acc.2)).1 (ext d) = some n := h
            rw [if_neg h0] at h2
            have h3 : (if ext d = ext d then some dbId else acc.1 (ext d))
                = some n := h2
            rw [if_pos rfl] at h3
            exact Or.inl ⟨h3, fun hn => h0 ((Option.some_inj.mp h3).trans hn)⟩
          · rintro (⟨h, _⟩ | ⟨(h | h), _⟩)
            · have h3 : (if ext d = ext d then some dbId else acc.1 (ext d))
                  = some n := by
                rw [if_pos rfl]
                exact h
              have h2 : (if dbId = 0 then (acc.1, acc.2 ++ [key d])
                  else (fun k => if k = ext d then some dbId else acc.1 k,
                    acc.2)).1 (ext d) = some n := by
                rw [if_neg h0]
                exact h3
              exact h2
            · cases h
            · exact absurd (Option.some_inj.mp h) h0
    · have hne : ext it ≠ ext d := by
        intro hext
        exact hnotin (hext ▸ List.mem_map_of_mem ext hd')
      have hstep : (extStep lookup key ext acc it).1 (ext d) = acc.1 (ext d) := by
        unfold extStep
        rcases hl : lookup (key it) with _ | dbId
        · rfl
        · by_cases h0 : dbId = 0
          · simp [h0]
          · simp only [h0, if_false]
            exact if_neg (fun hk => hne hk.symm)
      rw [ih hnd' _ hd', hstep]

/-- Full characterisation of a parent-entity remapping, generic in the
natural-key projections: with read-back rows of nonzero ids and distinct
natural keys, and source records of distinct external ids, the built map
sends a record's external id to exactly the id of the row carrying the
record's natural key, and records whose key is absent get no entry and a
warning. -/
theorem extMap_spec (rows : List ρ) (keyR : ρ → List Char) (rid : ρ → Nat)
    (data : List δ) (keyD : δ → List Char) (ext : δ → Nat)
    (hid : ∀ r ∈ rows, rid r ≠ 0)
    (hkey : (rows.map keyR).Nodup)
    (hext : (data.map ext).Nodup)
    (d : δ) (hd : d ∈ data) :
    (∀ n, ((buildExtMap (buildKeyMap rows keyR rid) keyD ext data).1 (ext d)
        = some n ↔ ∃ r ∈ rows, keyR r = keyD d ∧ rid r = n)) ∧
    ((∀ r ∈ rows, keyR r ≠ keyD d) →
      (buildExtMap (buildKeyMap rows keyR rid) keyD ext data).1 (ext d)
          = none ∧
        keyD d ∈ (buildExtMap (buildKeyMap rows keyR rid) keyD ext data).2) := by
  constructor
  · intro n
    unfold buildExtMap
    rw [extMap_go_lookup _ _ _ data hext _ d hd n]
    constructor
    · rintro (⟨hl, hn⟩ | ⟨_, hacc⟩)
      · unfold buildKeyMap at hl
        rcases (buildKeyMap_go_lookup keyR rid rows hkey _ _ n).mp hl with
          h | ⟨_, hnone⟩
        · exact h
        · exact absurd hnone (by simp)
      · exact absurd hacc (by simp)
    · rintro ⟨r, hr, hkr, hridr⟩
      refine Or.inl ⟨?_, hridr ▸ hid r hr⟩
      unfold buildKeyMap
      exact (buildKeyMap_go_lookup keyR rid rows hkey _ _ n).mpr
        (Or.inl ⟨r, hr, hkr, hridr⟩)
  · intro hnone
    have hl : buildKeyMap rows keyR rid (keyD d) = none := by
      unfold buildKeyMap
      rw [buildKeyMap_go_notmem keyR rid rows _ _ hnone]
    constructor
    · unfold buildExtMap
      rcases hv : (data.foldl (extStep (buildKeyMap rows keyR rid) keyD ext)
          (fun _ => none, [])).1 (ext d) with _ | n
      · rfl
      · have := (extMap_go_lookup _ _ _ data hext _ d hd n).mp hv
        rcases this with ⟨hsome, _⟩ | ⟨_, hacc⟩
        · rw [hl] at hsome
          cases hsome
        · exact absurd hacc (by simp)
    · unfold buildExtMap
      exact extMap_go_warn _ _ _ data _ d hd (Or.inl hl)

/-- C1 (amended): categories and subcategories whose parent id fails to
resolve through the parent remapping are dropped, with a warning, before
insertion — every inserted row's parent id comes from a successful map
lookup. Products undergo no such check: `importProducts` inserts one row
per source record, passing `subcategory_slug` through unchanged, so a
product whose subcategory_slug matches no subcategory is inserted anyway
(see the counterexample). -/
theorem C1_parent_resolution (cmap smap : Nat → Option Nat)
    (cdata : List ConvexCategory) (sdata : List ConvexSubcategory)
    (pdata : List ConvexProduct) :
    (∀ row ∈ categoriesToInsert cmap cdata,
      ∃ it ∈ cdata, cmap it.collection_id = some row.collection_id ∧
        row.collection_id ≠ 0) ∧
    (∀ it ∈ cdata, cmap it.collection_id = none →
      it.collection_id ∈ categoryWarnings cmap cdata) ∧
    (∀ row ∈ subcategoriesToInsert smap sdata,
      ∃ it ∈ sdata, smap it.subcollection_id = some row.subcollection_id ∧
        row.subcollection_id ≠ 0) ∧
    (∀ it ∈ sdata, smap it.subcollection_id = none →
      it.subcollection_id ∈ subcategoryWarnings smap sdata) ∧
    (productsToInsert pdata).length = pdata.length ∧
    (productsToInsert pdata).map (fun r => r.subcategory_slug) =
      pdata.map (fun d => d.subcategory_slug) := by
  refine ⟨?_, ?_, ?_, ?_, by simp [productsToInsert], by simp [productsToInsert]⟩
  · intro row hrow
    obtain ⟨it, hit, hf⟩ := List.mem_filterMap.mp hrow
    rcases hm : cmap it.collection_id with _ | cid
    · rw [hm] at hf
      cases hf
    · rw [hm] at hf
      have hf2 : (if cid = 0 then none
          else some (⟨it.slug, it.name, cid, jsOrNull it.image_url⟩ :
            CategoryRow)) = some row := hf
      by_cases h0 : cid = 0
      · rw [if_pos h0] at hf2
        cases hf2
      · rw [if_neg h0] at hf2
        have hrw := Option.some_inj.mp hf2
        refine ⟨it, hit, ?_, ?_⟩
        · rw [hm, ← hrw]
        · rw [← hrw]
          exact h0
  · intro it hit hm
    apply List.mem_filterMap.mpr
    exact ⟨it, hit, by rw [hm]⟩
  · intro row hrow
    obtain ⟨it, hit, hf⟩ := List.mem_filterMap.mp hrow
    rcases hm : smap it.subcollection_id with _ | sid
    · rw [hm] at hf
      cases hf
    · rw [hm] at hf
      have hf2 : (if sid = 0 then none
          else some (⟨it.slug, it.name, sid, jsOrNull it.image_url⟩ :
            SubcategoryRow)) = some row := hf
      by_cases h0 : sid = 0
      · rw [if_pos h0] at hf2
        cases hf2
      · rw [if_neg h0] at hf2
        have hrw := Option.some_inj.mp hf2
        refine ⟨it, hit, ?_, ?_⟩
        · rw [hm, ← hrw]
        · rw [← hrw]
          exact h0
  · intro it hit hm
    apply List.mem_filterMap.mpr
    exact ⟨it, hit, by rw [hm]⟩

theorem C1_parent_resolution_witness :
    ∃ it ∈ [catItemEx],
      cmapEx it.collection_id = some catRowEx.collection_id ∧
        catRowEx.collection_id ≠ 0 :=
  (C1_parent_resolution cmapEx cmapEx [catItemEx] [] []).1 catRowEx (by decide)

/-- C1 counterexample: a product whose `subcategory_slug` ("x") matches no
subcategory at all is still mapped to an insert row by `importProducts` —
it is not dropped, refuting the claim's "in particular" clause. -/
theorem C1_parent_resolution_counterexample :
    convexProductX.subcategory_slug ∉
        (([] : List SubcategoryRow).map (fun r => r.slug)) ∧
      productsToInsert [convexProductX] =
        [⟨str ("prod-x"), str ("Prod X"), str (""), 0, str ("x"), none⟩] := by
  decide

/-- C4: for the parent-entity imports (collections, subcollections), given
read-back rows with positive ids and distinct natural keys and source
records with distinct external ids, the remapping sends an external id to
internal id n exactly when some inserted row whose natural key (slug for
collections; name plus category_slug for subcollections) equals the source
record's natural key has store-assigned id n; a source record whose natural
key is not found gets no mapping entry and a warning. -/
theorem C4_remap (rows : List CollectionRow) (data : List ConvexCollection)
    (srows : List SubcollectionRow) (sdata : List ConvexSubcollection)
    (hid : ∀ r ∈ rows, r.id ≠ 0)
    (hkey : (rows.map (fun r => r.slug)).Nodup)
    (hext : (data.map (fun d => d.external_id)).Nodup)
    (hsid : ∀ r ∈ srows, r.id ≠ 0)
    (hskey : (srows.map (fun r => subcolKey r.name r.category_slug)).Nodup)
    (hsext : (sdata.map (fun d => d.external_id)).Nodup) :
    (∀ d ∈ data,
      (∀ n, ((collectionExtMap rows data).1 d.external_id = some n ↔
        ∃ r ∈ rows, r.slug = d.slug ∧ r.id = n)) ∧
      ((∀ r ∈ rows, r.slug ≠ d.slug) →
        (collectionExtMap rows data).1 d.external_id = none ∧
          d.slug ∈ (collectionExtMap rows data).2)) ∧
    (∀ d ∈ sdata,
      (∀ n, ((subcollectionExtMap srows sdata).1 d.external_id = some n ↔
        ∃ r ∈ srows, subcolKey r.name r.category_slug =
          subcolKey d.name d.category_slug ∧ r.id = n)) ∧
      ((∀ r ∈ srows, subcolKey r.name r.category_slug ≠
          subcolKey d.name d.category_slug) →
        (subcollectionExtMap srows sdata).1 d.external_id = none ∧
          subcolKey d.name d.category_slug ∈
            (subcollectionExtMap srows sdata).2)) := by
  constructor
  · intro d hd
    exact extMap_spec rows (fun r => r.slug) (fun r => r.id) data
      (fun d => d.slug) (fun d => d.external_id) hid hkey hext d hd
  · intro d hd
    exact extMap_spec srows (fun r => subcolKey r.name r.category_slug)
      (fun r => r.id) sdata (fun d => subcolKey d.name d.category_slug)
      (fun d => d.external_id) hsid hskey hsext d hd

theorem C4_remap_witness :
    (collectionExtMap [colRowEx] [colDataEx]).1 7 = some 3 :=
  (((C4_remap [colRowEx] [colDataEx] [] [] (by decide) (by decide) (by decide)
      (by decide) (by decide) (by decide)).1 colDataEx (by decide)).1 3).mpr
    ⟨colRowEx, by decide, rfl, rfl⟩

theorem splitNl_cons (c : Char) (rest : List Char) :
    splitNl (c :: rest) =
      if c = '\n' then [] :: splitNl rest
      else
        match splitNl rest with
        | [] => [[c]]
        | l :: ls => (c :: l) :: ls := by
  rw [splitNl]

theorem splitRL_one (c : Char) :
    splitRL [c] = if c = '\n' || c = '\r' then [[], []] else [[c]] := by
  rw [splitRL]

theorem splitRL_two (c c2 : Char) (rest : List Char) :
    splitRL (c :: c2 :: rest) =
      if c = '\n' then [] :: splitRL (c2 :: rest)
      else if c = '\r' then
        (if c2 = '\n' then [] :: splitRL rest else [] :: splitRL (c2 :: rest))
      else
        match splitRL (c2 :: rest) with
        | [] => [[c]]
        | l :: ls => (c :: l) :: ls := by
  rw [splitRL]

theorem noLoneCR_one (c : Char) :
    noLoneCR [c] = if c = '\r' then false else true := by
  rw [noLoneCR]

theorem noLoneCR_two (c c2 : Char) (rest : List Char) :
    noLoneCR (c :: c2 :: rest) =
      if c = '\r' then (if c2 = '\n' then noLoneCR rest else false)
      else noLoneCR (c2 :: rest) := by
  rw [noLoneCR]

theorem splitNl_ne_nil (l : List Char) : splitNl l ≠ [] := by
  match l with
  | [] => simp [splitNl]
  | c :: rest =>
    rw [splitNl_cons]
    by_cases hc : c = '\n'
    · rw [if_pos hc]
      simp
    · rw [if_neg hc]
      rcases hsp : splitNl rest with _ | ⟨l1, ls⟩ <;> simp

theorem splitRL_ne_nil (l : List Char) : splitRL l ≠ [] := by
  match l with
  | [] => simp [splitRL]
  | [c] =>
    rw [splitRL_one]
    by_cases hc : (c = '\n' || c = '\r') = true <;> simp [hc]
  | c :: c2 :: rest =>
    rw [splitRL_two]
    by_cases hn : c = '\n'
    · rw [if_pos hn]
      simp
    · rw [if_neg hn]
      by_cases hr : c = '\r'
      · rw [if_pos hr]
        by_cases h2 : c2 = '\n' <;> simp [h2]
      · rw [if_neg hr]
        rcases hsp : splitRL (c2 :: rest) with _ | ⟨l1, ls⟩ <;> simp

/-- The eager and readline line splittings agree up to a trailing `\r` on
each eager line, when the content has no lone carriage return. -/
theorem splitNl_splitRL (content : List Char) (h : noLoneCR content = true) :
    List.Forall₂ (fun l1 l2 => l1 = l2 ∨ l1 = l2 ++ ['\r'])
      (splitNl content) (splitRL content) := by
  have H : ∀ (n : Nat) (content : List Char), content.length ≤ n →
      noLoneCR content = true →
      List.Forall₂ (fun l1 l2 => l1 = l2 ∨ l1 = l2 ++ ['\r'])
        (splitNl content) (splitRL content) := by
    intro n
    induction n with
    | zero =>
      intro content hl _
      have hc0 : content = [] := List.length_eq_zero.mp (Nat.le_zero.mp hl)
      subst hc0
      exact List.Forall₂.cons (Or.inl rfl) List.Forall₂.nil
    | succ n ih =>
      intro content hl hcr
      match content with
      | [] => exact List.Forall₂.cons (Or.inl rfl) List.Forall₂.nil
      | [c] =>
        rw [noLoneCR_one] at hcr
        rw [splitNl_cons, splitRL_one]
        by_cases hn : c = '\n'
        · have hor : (c = '\n' || c = '\r') = true := by simp [hn]
          rw [if_pos hn, if_pos hor]
          exact List.Forall₂.cons (Or.inl rfl)
            (List.Forall₂.cons (Or.inl rfl) List.Forall₂.nil)
        · by_cases hr : c = '\r'
          · rw [if_pos hr] at hcr
            cases hcr
          · have hor : (c = '\n' || c = '\r') = false := by simp [hn, hr]
            rw [if_neg hn, if_neg (by simp [hor])]
            have hnil : splitNl ([] : List Char) = [[]] := rfl
            rw [hnil]
            exact List.Forall₂.cons (Or.inl rfl) List.Forall₂.nil
      | c :: c2 :: rest =>
        rw [noLoneCR_two] at hcr
        rw [splitNl_cons, splitRL_two]
        by_cases hn : c = '\n'
        · have hr : ¬(c = '\r') := by
            subst hn
            decide
          rw [if_neg hr] at hcr
          rw [if_pos hn, if_pos hn]
          exact List.Forall₂.cons (Or.inl rfl)
            (ih (c2 :: rest) (by simp at hl ⊢; omega) hcr)
        · rw [if_neg hn, if_neg hn]
          by_cases hr : c = '\r'
          · rw [if_pos hr] at hcr ⊢
            by_cases h2 : c2 = '\n'
            · rw [if_pos h2] at hcr ⊢
              subst h2
              have htail := ih rest (by simp at hl ⊢; omega) hcr
              rw [splitNl_cons, if_pos rfl]
              rcases hsp : splitNl rest with _ | ⟨l1, ls⟩
              · exact absurd hsp (splitNl_ne_nil rest)
              · rw [hsp] at htail
                refine List.Forall₂.cons (Or.inr (by rw [hr]; rfl)) ?_
                rcases hrl : splitRL rest with _ | ⟨l2, ls2⟩
                · exact absurd hrl (splitRL_ne_nil rest)
                · rw [hrl] at htail
                  exact htail
            · rw [if_neg h2] at hcr
              cases hcr
          · rw [if_neg hr] at hcr ⊢
            have htail := ih (c2 :: rest) (by simp at hl ⊢; omega) hcr
            rcases hsp1 : splitNl (c2 :: rest) with _ | ⟨l1, ls1⟩
            · exact absurd hsp1 (splitNl_ne_nil (c2 :: rest))
            · rcases hsp2 : splitRL (c2 :: rest) with _ | ⟨l2, ls2⟩
              · exact absurd hsp2 (splitRL_ne_nil (c2 :: rest))
              · rw [hsp1, hsp2] at htail
                rcases htail with _ | ⟨hR, hrest⟩
                rcases hR with heq | heq
                · exact List.Forall₂.cons (Or.inl (by rw [heq])) hrest
                · exact List.Forall₂.cons (Or.inr (by rw [heq]; rfl)) hrest
  exact H content.length content le_rfl h

theorem rtrimWs_append_cr (l : List Char) : rtrimWs (l ++ ['\r']) = rtrimWs l := by
  unfold rtrimWs
  rw [List.reverse_append]
  rfl

theorem jsTrim_append_cr (l : List Char) : jsTrim (l ++ ['\r']) = jsTrim l := by
  unfold jsTrim
  rw [rtrimWs_append_cr]

/-- Filtered-and-parsed line sequences agree across the two line
splittings, given a parse function insensitive to surrounding
whitespace. -/
theorem reader_eq_of_rel (parse : List Char → α)
    (hp : ∀ l, parse (jsTrim l) = parse l) (L1 L2 : List (List Char))
    (hrel : List.Forall₂ (fun l1 l2 => l1 = l2 ∨ l1 = l2 ++ ['\r']) L1 L2) :
    (L1.filter (fun l => !(jsTrim l).isEmpty)).map parse =
      (L2.filter (fun l => !(jsTrim l).isEmpty)).map parse := by
  induction hrel with
  | nil => rfl
  | @cons l1 l2 L1 L2 hR hrest ihrest =>
    have htrim : jsTrim l1 = jsTrim l2 := by
      rcases hR with heq | heq
      · rw [heq]
      · rw [heq, jsTrim_append_cr]
    have hparse : parse l1 = parse l2 := by
      rcases hR with heq | heq
      · rw [heq]
      · rw [heq, ← hp (l2 ++ ['\r']), jsTrim_append_cr, hp]
    rw [List.filter_cons, List.filter_cons, htrim]
    by_cases hk : (!(jsTrim l2).isEmpty) = true
    · rw [if_pos hk, if_pos hk, List.map_cons, List.map_cons, hparse, ihrest]
    · rw [if_neg hk, if_neg hk, ihrest]

/-- C6 (amended): the eager reader and the streaming reader produce the
same ordered sequence of records — one per non-blank line, blank and
whitespace-only lines skipped by both — for every parse function that
ignores surrounding whitespace (as `JSON.parse` does) and every file
content in which a carriage return only occurs immediately before a line
feed. On a lone carriage return the two disagree (see the
counterexample). -/
theorem C6_reader_equivalence (parse : List Char → α)
    (hp : ∀ l, parse (jsTrim l) = parse l) (content : List Char)
    (h : noLoneCR content = true) :
    readJSONL parse content = readJSONLStream parse content :=
  reader_eq_of_rel parse hp (splitNl content) (splitRL content)
    (splitNl_splitRL content h)

theorem C6_reader_equivalence_witness :
    readJSONL (fun _ => (0 : Nat)) (str ("a\r\nb")) =
      readJSONLStream (fun _ => (0 : Nat)) (str ("a\r\nb")) :=
  C6_reader_equivalence (fun _ => (0 : Nat)) (fun _ => rfl) (str ("a\r\nb"))
    (by decide)

/-- C6 counterexample: on the content "1\r2", which contains a lone
carriage return, the eager reader produces one record (from the single
line "1\r2") while the streaming reader produces two (readline ends a line
at the lone `\r`), so the two readers do not agree on every file
content. -/
theorem C6_reader_equivalence_counterexample :
    readJSONL (fun l => l) (str ("1\r2")) = [str ("1\r2")] ∧
      readJSONLStream (fun l => l) (str ("1\r2")) = [str ("1"), str ("2")] ∧
      readJSONL (fun l => l) (str ("1\r2")) ≠
        readJSONLStream (fun l => l) (str ("1\r2")) := by
  decide

/-- C8: a session token whose verified payload carries a well-formed
numeric user id but an expiry strictly in the past yields no authenticated
user: `getUser` returns `none` (and, being a total function, does not
throw). -/
theorem C8_expired_session (v : List Char) (hv : v.isEmpty = false)
    (verify : List Char → Option SessionData) (now : Int)
    (users : List UserRow) (sd : SessionData) (u : SessionUser) (uid : Int)
    (hverify : verify v = some sd) (huser : sd.user = some u)
    (hid : u.id = some uid) (hexp : sd.expires < now) :
    getUser (some v) verify now users = none := by
  unfold getUser
  simp [hv, hverify, huser, hid, hexp]

theorem C8_expired_session_witness :
    getUser (some (str ("tok"))) verifyEx 200 [userEx] = none :=
  C8_expired_session (str ("tok")) (by decide) verifyEx 200 [userEx]
    ⟨some ⟨some 7⟩, 100⟩ ⟨some 7⟩ 7 rfl rfl rfl (by decide)

/-- C10: a session token that verifies, is unexpired, and carries a
numeric user id for which the user table has no row yields no
authenticated user: `getUser` returns `none` rather than throwing. -/
theorem C10_missing_user (v : List Char) (hv : v.isEmpty = false)
    (verify : List Char → Option SessionData) (now : Int)
    (users : List UserRow) (sd : SessionData) (u : SessionUser) (uid : Int)
    (hverify : verify v = some sd) (huser : sd.user = some u)
    (hid : u.id = some uid) (hexp : ¬(sd.expires < now))
    (habs : ∀ r ∈ users, r.id ≠ uid) :
    getUser (some v) verify now users = none := by
  unfold getUser
  have hfilter : users.filter (fun r => r.id == uid) = [] := by
    rw [List.filter_eq_nil_iff]
    intro r hr
    simp only [beq_iff_eq]
    exact habs r hr
  simp [hv, hverify, huser, hid, hexp, hfilter]

theorem C10_missing_user_witness :
    getUser (some (str ("tok"))) verifyEx2 200 [userEx] = none :=
  C10_missing_user (str ("tok")) (by decide) verifyEx2 200 [userEx]
    ⟨some ⟨some 9⟩, 300⟩ ⟨some 9⟩ 9 rfl rfl rfl (by decide) (by decide)

theorem fetchAndExtract_src (fo : PageOutcome) :
    ∀ im ∈ (fetchAndExtract fo).images, truthyStr im.src = true := by
  intro im him
  rcases fo with _ | _ | imgs
  · cases him
  · cases him
  · exact (List.mem_filter.mp him).2

/-- C7 (amended): whenever the request reaches the page fetch (host
resolved, non-empty path), a fetch failure or a non-ok page response yields
status 200 with an empty image list; a 500 status is returned only when the
host cannot be resolved from the environment and the development host-header
fallback does not apply — so the endpoint does return a server-error status
in that configuration (see the counterexample), though never because of a
fetch or parse failure. -/
theorem C7_soft_fail (env : PrefetchEnv) (hh : Option (List Char))
    (rest : List (List Char)) (fo : PageOutcome) :
    ((truthyStr (getHostname env) = true ∨
        (truthyStr hh = true ∧ env.nodeEnvDev = true)) →
      (hrefOf rest).isEmpty = false →
      (fo = PageOutcome.fetchFail ∨ fo = PageOutcome.notOk) →
      GET env hh rest fo = ⟨200, []⟩) ∧
    ((GET env hh rest fo).status = 500 →
      truthyStr (getHostname env) = false ∧
        ¬(truthyStr hh = true ∧ env.nodeEnvDev = true)) := by
  constructor
  · intro hhost href hfo
    have hfe : fetchAndExtract fo = ⟨200, []⟩ := by
      rcases hfo with rfl | rfl <;> rfl
    unfold GET
    rcases hhost with h | ⟨h1, h2⟩
    · rw [if_pos h, if_neg (by rw [href]; exact Bool.false_ne_true), hfe]
    · by_cases h : truthyStr (getHostname env) = true
      · rw [if_pos h, if_neg (by rw [href]; exact Bool.false_ne_true), hfe]
      · rw [if_neg h, if_pos (by rw [h1, h2]; rfl),
          if_neg (by rw [href]; exact Bool.false_ne_true), hfe]
  · intro h500
    unfold GET at h500
    by_cases h : truthyStr (getHostname env) = true
    · rw [if_pos h] at h500
      by_cases he : (hrefOf rest).isEmpty = true
      · rw [if_pos he] at h500
        simp at h500
      · rw [if_neg he] at h500
        rcases fo <;> simp [fetchAndExtract] at h500
    · rw [if_neg h] at h500
      by_cases hd : (truthyStr hh && env.nodeEnvDev) = true
      · rw [if_pos hd] at h500
        by_cases he : (hrefOf rest).isEmpty = true
        · rw [if_pos he] at h500
          simp at h500
        · rw [if_neg he] at h500
          rcases fo <;> simp [fetchAndExtract] at h500
      · refine ⟨(Bool.not_eq_true _).mp h, ?_⟩
        rintro ⟨h1, h2⟩
        exact hd (by rw [h1, h2]; rfl)

theorem C7_soft_fail_witness :
    GET devEnv none [str ("p")] PageOutcome.fetchFail = ⟨200, []⟩ :=
  (C7_soft_fail devEnv none [str ("p")] PageOutcome.fetchFail).1
    (Or.inl (by decide)) (by decide) (Or.inl rfl)

/-- C7 counterexample: with no resolvable host (production environment,
no Vercel URL variables) and no development host-header fallback, the
endpoint returns HTTP 500 — a server-error status — refuting the claim
that it never returns one to the caller. -/
theorem C7_soft_fail_counterexample :
    (GET prodBadEnv none [str ("p")] PageOutcome.fetchFail).status = 500 := by
  decide

/-- C9: every image object in the images array of any response from the
image-prefetch endpoint has a present, non-empty src attribute: elements
whose src attribute is missing or empty are filtered out before the
response is built. -/
theorem C9_img_src_truthy (env : PrefetchEnv) (hh : Option (List Char))
    (rest : List (List Char)) (fo : PageOutcome) :
    ∀ im ∈ (GET env hh rest fo).images, truthyStr im.src = true := by
  intro im him
  unfold GET at him
  by_cases h : truthyStr (getHostname env) = true
  · rw [if_pos h] at him
    by_cases he : (hrefOf rest).isEmpty = true
    · rw [if_pos he] at him
      cases him
    · rw [if_neg he] at him
      exact fetchAndExtract_src fo im him
  · rw [if_neg h] at him
    by_cases hd : (truthyStr hh && env.nodeEnvDev) = true
    · rw [if_pos hd] at him
      by_cases he : (hrefOf rest).isEmpty = true
      · rw [if_pos he] at him
        cases him
      · rw [if_neg he] at him
        exact fetchAndExtract_src fo im him
    · rw [if_neg hd] at him
      cases him

theorem C9_img_src_truthy_witness :
    truthyStr (⟨some (str ("a.webp 1x")), none, some (str ("/a.webp")),
      none, none⟩ : ImgOut).src = true :=
  C9_img_src_truthy devEnv none [str ("p")]
    (PageOutcome.page [imgGood, imgBad]) _ (by decide)

end TursoFaster
